import Mathlib

/-!
Verification of the reusable logic of the Crescent City tsunami inundation
notebook (`src/notebooks/Crescent_City_Inundation_CartopyMap.ipynb`).

The notebook's only non-trivial routine is `discrete_cmap_1`, which builds a
discrete colormap (a list of RGB triples) from a list of contour break values
using `numpy.linspace`, `numpy.ones`, `numpy.zeros`, `numpy.hstack` and `zip`.
We embed it shallowly over `ℚ` (exact rational arithmetic in place of Python
floats; every quantity the function computes is exactly representable and the
formulas involve only +, -, *, / on small decimals, so the idealised semantics
and the float semantics of the relevant facts coincide at the granularity the
claims speak at).  A numpy `ValueError` (raised by `linspace`/`ones`/`zeros`
on a negative sample count) is embedded as `Option.none`.
-/

/-- Embedding of `numpy.linspace start stop num` with `endpoint=True` (the default used by
the notebook), over `ℚ`.  A negative `num` raises `ValueError` (`none`);
`num = 0` gives the empty array; `num = 1` gives `[start]`; otherwise the
`i`-th sample is `start + (stop - start) * i / (num - 1)`, so the last sample
is exactly `stop`. -/
def linspace (a b : ℚ) (num : ℤ) : Option (List ℚ) :=
  if num < 0 then none
  else if num ≤ 1 then some (List.replicate num.toNat a)
  else some ((List.range num.toNat).map fun i : ℕ => a + (b - a) * (i : ℚ) / ((num : ℚ) - 1))

/-- Embedding of `numpy.ones num` over `ℚ`: `ValueError` on a negative count. -/
def np_ones (num : ℤ) : Option (List ℚ) :=
  if num < 0 then none else some (List.replicate num.toNat 1)

/-- Embedding of `numpy.zeros num` over `ℚ`: `ValueError` on a negative count. -/
def np_zeros (num : ℤ) : Option (List ℚ) :=
  if num < 0 then none else some (List.replicate num.toNat 0)

/-- The notebook's colormap builder, verbatim from the source cell:

```python
def discrete_cmap_1(clines):
    nlines = len(clines)
    n1 = int(floor((nlines-1)/2.))
    n2 = nlines - 1 - n1
    Green = hstack([linspace(1,1,n1),linspace(1,0,n2)])
    Red = hstack([linspace(0,0.8,n1), ones(n2)])
    Blue = hstack([linspace(1,0.2,n1), zeros(n2)])
    colors = list(zip(Red,Green,Blue))
    return colors
```

`int(floor(x/2.))` on an integer `x` is floor division, embedded as
`Int.fdiv`; `hstack` is list append; Python's `zip` truncates to the shorter
argument exactly as `List.zip` does; `0.8 = 4/5` and `0.2 = 1/5`.  The only
way the Python function can raise is a `ValueError` out of
`linspace`/`ones`/`zeros` on a negative count, embedded by the `Option`
monad. -/
def discrete_cmap_1 (clines : List ℚ) : Option (List (ℚ × ℚ × ℚ)) :=
  let nlines : ℤ := clines.length
  let n1 : ℤ := Int.fdiv (nlines - 1) 2
  let n2 : ℤ := nlines - 1 - n1
  (linspace 1 1 n1).bind fun g1 =>
  (linspace 1 0 n2).bind fun g2 =>
  (linspace 0 (4/5) n1).bind fun r1 =>
  (np_ones n2).bind fun r2 =>
  (linspace 1 (1/5) n1).bind fun b1 =>
  (np_zeros n2).bind fun b2 =>
  some (List.zip (r1 ++ r2) (List.zip (g1 ++ g2) (b1 ++ b2)))

/-- The low-half interval count `n1 = ⌊(N-1)/2⌋` of `discrete_cmap_1`, as a
natural number (valid once `N ≥ 1`). -/
def n1_of (N : ℕ) : ℕ := (N - 1) / 2

/-- The high-half interval count `n2 = (N-1) - n1` of `discrete_cmap_1`. -/
def n2_of (N : ℕ) : ℕ := N - 1 - n1_of N

/-- Version of `linspace` restricted to a non-negative (natural) sample count, where it
cannot fail. -/
def natLinspace (a b : ℚ) (num : ℕ) : List ℚ :=
  if num ≤ 1 then List.replicate num a
  else (List.range num).map fun i : ℕ => a + (b - a) * (i : ℚ) / ((num : ℚ) - 1)

/-- The colors produced for a split into `n1` low and `n2` high intervals. -/
def mkColors (n1 n2 : ℕ) : List (ℚ × ℚ × ℚ) :=
  let Green := natLinspace 1 1 n1 ++ natLinspace 1 0 n2
  let Red := natLinspace 0 (4/5) n1 ++ List.replicate n2 1
  let Blue := natLinspace 1 (1/5) n1 ++ List.replicate n2 0
  List.zip Red (List.zip Green Blue)

theorem linspace_natCast (a b : ℚ) (n : ℕ) :
    linspace a b (n : ℤ) = some (natLinspace a b n) := by
  unfold linspace natLinspace
  have h0 : ¬ ((n : ℤ) < 0) := by omega
  rw [if_neg h0]
  by_cases h1 : n ≤ 1
  · rw [if_pos (by exact_mod_cast h1), if_pos h1, Int.toNat_natCast]
  · rw [if_neg (by exact_mod_cast h1), if_neg h1, Int.toNat_natCast]
    norm_num

theorem np_ones_natCast (n : ℕ) : np_ones (n : ℤ) = some (List.replicate n 1) := by
  unfold np_ones
  rw [if_neg (by omega), Int.toNat_natCast]

theorem np_zeros_natCast (n : ℕ) : np_zeros (n : ℤ) = some (List.replicate n 0) := by
  unfold np_zeros
  rw [if_neg (by omega), Int.toNat_natCast]

theorem discrete_cmap_1_eq_mkColors (clines : List ℚ) (h : clines ≠ []) :
    discrete_cmap_1 clines =
      some (mkColors (n1_of clines.length) (n2_of clines.length)) := by
  have hL : 1 ≤ clines.length := List.length_pos.mpr h
  have hfd : Int.fdiv ((clines.length : ℤ) - 1) 2 = ((n1_of clines.length : ℕ) : ℤ) := by
    rw [Int.fdiv_eq_ediv _ (by omega)]
    unfold n1_of
    omega
  have hn2 : (clines.length : ℤ) - 1 - ((n1_of clines.length : ℕ) : ℤ)
      = ((n2_of clines.length : ℕ) : ℤ) := by
    unfold n2_of n1_of
    omega
  simp only [discrete_cmap_1, mkColors, hfd, hn2, linspace_natCast,
    np_ones_natCast, np_zeros_natCast, Option.some_bind]

/-- The value of the `k`-th sample of a linear ramp from `a` to `b` with `n`
samples, written the way the spec describes the channels ("linearly
interpolated from `a` to `b`"): `a + (b - a) * k / (n - 1)`.  For `n = 1`
(a single sample) this degenerates to `a`, matching `numpy.linspace`'s
convention of returning `[start]`, since `k = 0` and division by zero is `0`
in `ℚ`. -/
def lerp (a b : ℚ) (n k : ℕ) : ℚ := a + (b - a) * k / ((n : ℚ) - 1)

/-- Spec-side formula for the Red channel of the `k`-th triple, following the
spec's words: "linearly interpolated from 0.0 to 0.8 across the n1 low
intervals and 1.0 on each of the n2 high intervals". -/
def specRed (n1 : ℕ) (k : ℕ) : ℚ := if k < n1 then lerp 0 (4/5) n1 k else 1

/-- Spec-side formula for the Green channel of the `k`-th triple: "1.0 on each
of the n1 low intervals and linearly interpolated from 1.0 to 0.0 across the
n2 high intervals". -/
def specGreen (n1 n2 : ℕ) (k : ℕ) : ℚ := if k < n1 then 1 else lerp 1 0 n2 (k - n1)

/-- Spec-side formula for the Blue channel of the `k`-th triple: "linearly
interpolated from 1.0 to 0.2 across the n1 low intervals and 0.0 on each of
the n2 high intervals". -/
def specBlue (n1 : ℕ) (k : ℕ) : ℚ := if k < n1 then lerp 1 (1/5) n1 k else 0

theorem natLinspace_length (a b : ℚ) (n : ℕ) : (natLinspace a b n).length = n := by
  unfold natLinspace
  by_cases h : n ≤ 1 <;> simp [h]

theorem natLinspace_getElem (a b : ℚ) (n k : ℕ) (hk : k < n)
    (hk' : k < (natLinspace a b n).length) :
    (natLinspace a b n)[k] = lerp a b n k := by
  unfold natLinspace lerp
  by_cases h : n ≤ 1
  · have hn : n = 1 := by omega
    have hk0 : k = 0 := by omega
    subst hn hk0
    simp
  · simp only [if_neg h, List.getElem_map, List.getElem_range]

theorem natLinspace_eq_map (a b : ℚ) (n : ℕ) :
    natLinspace a b n = (List.range n).map (lerp a b n) := by
  apply List.ext_getElem
  · simp [natLinspace_length]
  · intro k hk hk'
    rw [natLinspace_getElem a b n k (by simpa [natLinspace_length] using hk) hk,
      List.getElem_map, List.getElem_range]

theorem replicate_eq_map (c : ℚ) (n : ℕ) :
    List.replicate n c = (List.range n).map (fun _ => c) := by
  apply List.ext_getElem <;> simp

theorem mkColors_length (n1 n2 : ℕ) : (mkColors n1 n2).length = n1 + n2 := by
  unfold mkColors
  simp [natLinspace_length]

theorem redList_getElem (n1 n2 k : ℕ) (_hk : k < n1 + n2)
    (hk2 : k < (natLinspace 0 (4/5) n1 ++ List.replicate n2 1).length) :
    (natLinspace 0 (4/5) n1 ++ List.replicate n2 1)[k] = specRed n1 k := by
  unfold specRed
  by_cases h : k < n1
  · rw [List.getElem_append_left (by simpa [natLinspace_length] using h), if_pos h,
      natLinspace_getElem _ _ _ _ h]
  · rw [List.getElem_append_right (by simpa [natLinspace_length] using h), if_neg h]
    simp

theorem greenList_getElem (n1 n2 k : ℕ) (hk : k < n1 + n2)
    (hk2 : k < (natLinspace 1 1 n1 ++ natLinspace 1 0 n2).length) :
    (natLinspace 1 1 n1 ++ natLinspace 1 0 n2)[k] = specGreen n1 n2 k := by
  unfold specGreen
  by_cases h : k < n1
  · rw [List.getElem_append_left (by simpa [natLinspace_length] using h), if_pos h,
      natLinspace_getElem _ _ _ _ h]
    unfold lerp
    ring
  · rw [List.getElem_append_right (by simpa [natLinspace_length] using h), if_neg h]
    rw [natLinspace_getElem]
    · simp [natLinspace_length]
    · simp only [natLinspace_length]
      omega

theorem blueList_getElem (n1 n2 k : ℕ) (_hk : k < n1 + n2)
    (hk2 : k < (natLinspace 1 (1/5) n1 ++ List.replicate n2 0).length) :
    (natLinspace 1 (1/5) n1 ++ List.replicate n2 0)[k] = specBlue n1 k := by
  unfold specBlue
  by_cases h : k < n1
  · rw [List.getElem_append_left (by simpa [natLinspace_length] using h), if_pos h,
      natLinspace_getElem _ _ _ _ h]
  · rw [List.getElem_append_right (by simpa [natLinspace_length] using h), if_neg h]
    simp

theorem mkColors_getElem (n1 n2 k : ℕ) (hk : k < n1 + n2)
    (hk2 : k < (mkColors n1 n2).length) :
    (mkColors n1 n2)[k] = (specRed n1 k, specGreen n1 n2 k, specBlue n1 k) := by
  unfold mkColors
  rw [List.getElem_zip, List.getElem_zip,
    redList_getElem n1 n2 k hk, greenList_getElem n1 n2 k hk, blueList_getElem n1 n2 k hk]

theorem lerp_zero (a b : ℚ) (n : ℕ) : lerp a b n 0 = a := by
  unfold lerp
  simp

theorem lerp_succ_sub (a b : ℚ) (n k : ℕ) (h : 2 ≤ n) :
    lerp a b n (k + 1) - lerp a b n k = (b - a) / ((n : ℚ) - 1) := by
  unfold lerp
  have h2 : (2 : ℚ) ≤ (n : ℚ) := by exact_mod_cast h
  have hn : ((n : ℚ) - 1) ≠ 0 := by linarith
  field_simp
  ring

theorem lerp_mono_le (a b : ℚ) (hab : a ≤ b) (n k : ℕ) (h : k + 1 < n) :
    lerp a b n k ≤ lerp a b n (k + 1) := by
  have h2 : 2 ≤ n := by omega
  have h2q : (2 : ℚ) ≤ (n : ℚ) := by exact_mod_cast h2
  have hd := lerp_succ_sub a b n k h2
  have hnonneg : 0 ≤ (b - a) / ((n : ℚ) - 1) :=
    div_nonneg (by linarith) (by linarith)
  linarith

theorem lerp_anti_le (a b : ℚ) (hab : b ≤ a) (n k : ℕ) (h : k + 1 < n) :
    lerp a b n (k + 1) ≤ lerp a b n k := by
  have h2 : 2 ≤ n := by omega
  have h2q : (2 : ℚ) ≤ (n : ℚ) := by exact_mod_cast h2
  have hd := lerp_succ_sub a b n k h2
  have hnonpos : (b - a) / ((n : ℚ) - 1) ≤ 0 :=
    div_nonpos_of_nonpos_of_nonneg (by linarith) (by linarith)
  linarith

theorem left_le_lerp (a b : ℚ) (hab : a ≤ b) (n k : ℕ) (hk : k < n) :
    a ≤ lerp a b n k := by
  unfold lerp
  by_cases h1 : n ≤ 1
  · have hk0 : k = 0 := by omega
    subst hk0
    simp
  · have h2q : (2 : ℚ) ≤ (n : ℚ) := by exact_mod_cast (by omega : 2 ≤ n)
    have : 0 ≤ (b - a) * (k : ℚ) / ((n : ℚ) - 1) :=
      div_nonneg (mul_nonneg (by linarith) (by positivity)) (by linarith)
    linarith

theorem lerp_le_right (a b : ℚ) (hab : a ≤ b) (n k : ℕ) (hk : k < n) :
    lerp a b n k ≤ b := by
  unfold lerp
  by_cases h1 : n ≤ 1
  · have hk0 : k = 0 := by omega
    simp [hk0, hab]
  · have h2q : (2 : ℚ) ≤ (n : ℚ) := by exact_mod_cast (by omega : 2 ≤ n)
    have hkq : (k : ℚ) ≤ (n : ℚ) - 1 := by
      have : (k : ℚ) + 1 ≤ (n : ℚ) := by exact_mod_cast hk
      linarith
    have hdpos : (0 : ℚ) < (n : ℚ) - 1 := by linarith
    have : (b - a) * (k : ℚ) / ((n : ℚ) - 1) ≤ b - a := by
      rw [div_le_iff₀ hdpos]
      exact mul_le_mul_of_nonneg_left hkq (by linarith)
    linarith

theorem lerp_swap (a b : ℚ) (n k : ℕ) : lerp b a n k = a + b - lerp a b n k := by
  unfold lerp
  ring

theorem lerp_le_left (a b : ℚ) (hab : b ≤ a) (n k : ℕ) (hk : k < n) :
    lerp a b n k ≤ a := by
  have := left_le_lerp b a hab n k hk
  rw [lerp_swap] at this
  linarith

theorem right_le_lerp (a b : ℚ) (hab : b ≤ a) (n k : ℕ) (hk : k < n) :
    b ≤ lerp a b n k := by
  have := lerp_le_right b a hab n k hk
  rw [lerp_swap] at this
  linarith

theorem specRed_bounds (n1 k : ℕ) : 0 ≤ specRed n1 k ∧ specRed n1 k ≤ 1 := by
  unfold specRed
  by_cases h : k < n1
  · rw [if_pos h]
    refine ⟨left_le_lerp 0 (4/5) (by norm_num) n1 k h, ?_⟩
    have := lerp_le_right 0 (4/5) (by norm_num) n1 k h
    linarith
  · rw [if_neg h]
    norm_num

theorem specGreen_bounds (n1 n2 k : ℕ) (hk : k < n1 + n2) :
    0 ≤ specGreen n1 n2 k ∧ specGreen n1 n2 k ≤ 1 := by
  unfold specGreen
  by_cases h : k < n1
  · rw [if_pos h]
    norm_num
  · rw [if_neg h]
    have hk2 : k - n1 < n2 := by omega
    exact ⟨right_le_lerp 1 0 (by norm_num) n2 (k - n1) hk2,
      lerp_le_left 1 0 (by norm_num) n2 (k - n1) hk2⟩

theorem specBlue_bounds (n1 k : ℕ) : 0 ≤ specBlue n1 k ∧ specBlue n1 k ≤ 1 := by
  unfold specBlue
  by_cases h : k < n1
  · rw [if_pos h]
    refine ⟨?_, lerp_le_left 1 (1/5) (by norm_num) n1 k h⟩
    have := right_le_lerp 1 (1/5) (by norm_num) n1 k h
    linarith
  · rw [if_neg h]
    norm_num

theorem specRed_mono (n1 n2 k : ℕ) (_hk : k + 1 < n1 + n2) :
    specRed n1 k ≤ specRed n1 (k + 1) := by
  unfold specRed
  by_cases h1 : k + 1 < n1
  · rw [if_pos (by omega), if_pos h1]
    exact lerp_mono_le 0 (4/5) (by norm_num) n1 k h1
  · by_cases h0 : k < n1
    · rw [if_pos h0, if_neg h1]
      have := lerp_le_right 0 (4/5) (by norm_num) n1 k h0
      linarith
    · rw [if_neg h0, if_neg h1]

theorem specGreen_anti (n1 n2 k : ℕ) (hk : k + 1 < n1 + n2) :
    specGreen n1 n2 (k + 1) ≤ specGreen n1 n2 k := by
  unfold specGreen
  by_cases h1 : k + 1 < n1
  · rw [if_pos h1, if_pos (show k < n1 by omega)]
  · by_cases h0 : k < n1
    · rw [if_pos h0, if_neg h1]
      have hz : k + 1 - n1 = 0 := by omega
      rw [hz, lerp_zero]
    · rw [if_neg h0, if_neg h1]
      have hs : k + 1 - n1 = (k - n1) + 1 := by omega
      rw [hs]
      exact lerp_anti_le 1 0 (by norm_num) n2 (k - n1) (by omega)

theorem specBlue_anti (n1 n2 k : ℕ) (_hk : k + 1 < n1 + n2) :
    specBlue n1 (k + 1) ≤ specBlue n1 k := by
  unfold specBlue
  by_cases h1 : k + 1 < n1
  · rw [if_pos h1, if_pos (show k < n1 by omega)]
    exact lerp_anti_le 1 (1/5) (by norm_num) n1 k h1
  · by_cases h0 : k < n1
    · rw [if_pos h0, if_neg h1]
      have := right_le_lerp 1 (1/5) (by norm_num) n1 k h0
      linarith
    · rw [if_neg h0, if_neg h1]

theorem n1_add_n2 (N : ℕ) (h : 1 ≤ N) : n1_of N + n2_of N = N - 1 := by
  simp only [n2_of, n1_of]
  omega

theorem mkColors_eq_map (n1 n2 : ℕ) :
    mkColors n1 n2 = (List.range (n1 + n2)).map
      (fun k => (specRed n1 k, specGreen n1 n2 k, specBlue n1 k)) := by
  apply List.ext_getElem
  · simp [mkColors_length]
  · intro k hk hk'
    rw [mkColors_getElem _ _ _ (by simpa [mkColors_length] using hk) hk,
      List.getElem_map, List.getElem_range]

/-- C1: for every breaks sequence of `N ≥ 2` floats, `discrete_cmap_1` returns
(rather than raising) an ordered list of exactly `N - 1` RGB triples, one
color per interval between consecutive breaks. -/
theorem colormap_color_count (clines : List ℚ) (h : 2 ≤ clines.length) :
    ∃ cs, discrete_cmap_1 clines = some cs ∧ cs.length = clines.length - 1 := by
  refine ⟨_, discrete_cmap_1_eq_mkColors clines (List.length_pos.mp (by omega)), ?_⟩
  rw [mkColors_length, n1_add_n2 _ (by omega)]

/-- C1 witness at the concrete input `[0, 1, 2]`. -/
theorem colormap_color_count_witness :
    2 ≤ ([0, 1, 2] : List ℚ).length ∧
      ∃ cs, discrete_cmap_1 [0, 1, 2] = some cs ∧
        cs.length = ([0, 1, 2] : List ℚ).length - 1 :=
  ⟨by decide, colormap_color_count [0, 1, 2] (by decide)⟩

/-- C2: for every breaks sequence of `N ≥ 2` floats, with `n1 = ⌊(N-1)/2⌋` and
`n2 = (N-1) - n1`, the `k`-th returned triple's channels are: Red linearly
interpolated `0 → 0.8` over the `n1` low intervals then flat `1`; Green flat
`1` over the low intervals then linearly `1 → 0` over the `n2` high
intervals; Blue linearly `1 → 0.2` over the low intervals then flat `0`. -/
theorem colormap_channel_values (clines : List ℚ) (h : 2 ≤ clines.length)
    (k : ℕ) (hk : k < clines.length - 1) :
    ∃ cs, discrete_cmap_1 clines = some cs ∧
      cs[k]? = some (specRed (n1_of clines.length) k,
        specGreen (n1_of clines.length) (n2_of clines.length) k,
        specBlue (n1_of clines.length) k) := by
  refine ⟨_, discrete_cmap_1_eq_mkColors clines (List.length_pos.mp (by omega)), ?_⟩
  have hk' : k < (mkColors (n1_of clines.length) (n2_of clines.length)).length := by
    rw [mkColors_length, n1_add_n2 _ (by omega)]
    exact hk
  rw [List.getElem?_eq_getElem hk',
    mkColors_getElem _ _ _ (by rwa [mkColors_length] at hk') hk']

/-- C2 witness at the concrete input `[0, 1, 2, 3, 4]`, `k = 2`. -/
theorem colormap_channel_values_witness :
    (2 ≤ ([0, 1, 2, 3, 4] : List ℚ).length ∧ 2 < ([0, 1, 2, 3, 4] : List ℚ).length - 1) ∧
      ∃ cs, discrete_cmap_1 [0, 1, 2, 3, 4] = some cs ∧
        cs[2]? = some (specRed (n1_of ([0, 1, 2, 3, 4] : List ℚ).length) 2,
          specGreen (n1_of ([0, 1, 2, 3, 4] : List ℚ).length)
            (n2_of ([0, 1, 2, 3, 4] : List ℚ).length) 2,
          specBlue (n1_of ([0, 1, 2, 3, 4] : List ℚ).length) 2) :=
  ⟨⟨by decide, by decide⟩, colormap_channel_values [0, 1, 2, 3, 4] (by decide) 2 (by decide)⟩

/-- C3 counterexample: for the breaks `[0, 1, 2, 3]` (`N = 4`, `N - 1 = 3`
odd) the code's split is `n1 = 1`, `n2 = 2`: floor division gives the extra
interval to the HIGH half, so `n1 > n2` is false.  The full output at this
input confirms the split (one interpolated low color, two high colors). -/
theorem split_favors_low_counterexample :
    (([0, 1, 2, 3] : List ℚ).length - 1) % 2 = 1 ∧
      n1_of ([0, 1, 2, 3] : List ℚ).length = 1 ∧
      n2_of ([0, 1, 2, 3] : List ℚ).length = 2 ∧
      ¬ n1_of ([0, 1, 2, 3] : List ℚ).length > n2_of ([0, 1, 2, 3] : List ℚ).length ∧
      discrete_cmap_1 [0, 1, 2, 3] = some [(0, 1, 1), (1, 1, 0), (1, 0, 0)] := by
  refine ⟨by decide, by decide, by decide, by decide, ?_⟩
  rw [discrete_cmap_1_eq_mkColors _ (by simp)]
  norm_num [n1_of, n2_of, mkColors, natLinspace, List.range_succ, List.replicate_succ]

/-- C3 (amended): for every breaks sequence of `N ≥ 2` floats where `N - 1`
is odd, the split gives the extra interval to the HIGH half: `n1 < n2` (floor
division shortchanges `n1`). -/
theorem split_extra_interval_high (clines : List ℚ) (h : 2 ≤ clines.length)
    (hodd : Odd (clines.length - 1)) :
    n1_of clines.length < n2_of clines.length := by
  rw [Nat.odd_iff] at hodd
  simp only [n2_of, n1_of]
  omega

/-- C3 (amended) witness at the concrete input `[0, 1, 2, 3]`. -/
theorem split_extra_interval_high_witness :
    (2 ≤ ([0, 1, 2, 3] : List ℚ).length ∧ Odd (([0, 1, 2, 3] : List ℚ).length - 1)) ∧
      n1_of ([0, 1, 2, 3] : List ℚ).length < n2_of ([0, 1, 2, 3] : List ℚ).length :=
  ⟨⟨by decide, ⟨1, rfl⟩⟩, split_extra_interval_high [0, 1, 2, 3] (by decide) ⟨1, rfl⟩⟩

/-- C4 counterexample: `discrete_cmap_1 [0]` does NOT raise `ValueError`; with
one break it computes `n1 = 0`, `n2 = 0` and returns the empty color list. -/
theorem short_breaks_no_error_counterexample :
    discrete_cmap_1 [(0 : ℚ)] = some [] := by decide

/-- C4 (amended): the only failure mode is a `ValueError` (out of
`numpy.linspace`, on the negative sample count `n1 = -1`), and it happens
exactly when the breaks sequence is EMPTY; every non-empty breaks sequence,
including the single-element `[0]`, returns a (possibly empty) color list. -/
theorem colormap_error_iff_empty (clines : List ℚ) :
    discrete_cmap_1 clines = none ↔ clines = [] := by
  constructor
  · intro hnone
    by_contra hne
    rw [discrete_cmap_1_eq_mkColors clines hne] at hnone
    exact Option.noConfusion hnone
  · rintro rfl
    decide

/-- C5 counterexample: on the minimal breaks `[0, 1]` the builder returns one
triple, but that triple is `(1, 1, 0)` (yellow, the high-end start value),
not `(0, 1, 1)`: since `n1 = ⌊1/2⌋ = 0`, the single interval lands in the
HIGH half. -/
theorem minimal_breaks_counterexample :
    discrete_cmap_1 [(0 : ℚ), 1] = some [(1, 1, 0)] ∧
      ((1, 1, 0) : ℚ × ℚ × ℚ) ≠ (0, 1, 1) := by
  constructor
  · rw [discrete_cmap_1_eq_mkColors _ (by simp)]
    norm_num [n1_of, n2_of, mkColors, natLinspace, List.replicate_succ]
  · norm_num

/-- C5 (amended): `discrete_cmap_1 [0, 1]` returns exactly one triple, equal
to `(1.0, 1.0, 0.0)` (the start of the high-half ramp). -/
theorem minimal_breaks_value :
    discrete_cmap_1 [(0 : ℚ), 1] = some [((1 : ℚ), (1 : ℚ), (0 : ℚ))] := by
  rw [discrete_cmap_1_eq_mkColors _ (by simp)]
  norm_num [n1_of, n2_of, mkColors, natLinspace, List.replicate_succ]

/-- C6: for every breaks sequence of `N ≥ 2` floats, every channel of every
returned triple lies in `[0, 1]`, with no clamping step in the code. -/
theorem colormap_channels_in_unit_interval (clines : List ℚ) (h : 2 ≤ clines.length) :
    ∃ cs, discrete_cmap_1 clines = some cs ∧
      ∀ c ∈ cs, 0 ≤ c.1 ∧ c.1 ≤ 1 ∧ 0 ≤ c.2.1 ∧ c.2.1 ≤ 1 ∧ 0 ≤ c.2.2 ∧ c.2.2 ≤ 1 := by
  refine ⟨_, discrete_cmap_1_eq_mkColors clines (List.length_pos.mp (by omega)), ?_⟩
  intro c hc
  rw [List.mem_iff_getElem] at hc
  obtain ⟨k, hk, rfl⟩ := hc
  have hkn : k < n1_of clines.length + n2_of clines.length := by
    rwa [mkColors_length] at hk
  rw [mkColors_getElem _ _ _ hkn hk]
  obtain ⟨hr0, hr1⟩ := specRed_bounds (n1_of clines.length) k
  obtain ⟨hg0, hg1⟩ := specGreen_bounds (n1_of clines.length) (n2_of clines.length) k hkn
  obtain ⟨hb0, hb1⟩ := specBlue_bounds (n1_of clines.length) k
  exact ⟨hr0, hr1, hg0, hg1, hb0, hb1⟩

/-- C6 witness at the concrete input `[0, 1, 2]`. -/
theorem colormap_channels_in_unit_interval_witness :
    2 ≤ ([0, 1, 2] : List ℚ).length ∧
      ∃ cs, discrete_cmap_1 [0, 1, 2] = some cs ∧
        ∀ c ∈ cs, 0 ≤ c.1 ∧ c.1 ≤ 1 ∧ 0 ≤ c.2.1 ∧ c.2.1 ≤ 1 ∧ 0 ≤ c.2.2 ∧ c.2.2 ≤ 1 :=
  ⟨by decide, colormap_channels_in_unit_interval [0, 1, 2] (by decide)⟩

/-- C7: the builder is deterministic: it is embedded as a pure function (the
Python function reads nothing but its argument and writes no external state:
it only calls the pure numpy constructors `linspace`/`ones`/`zeros`/`hstack`
and `zip`), so identical inputs give identical outputs. -/
theorem discrete_cmap_1_deterministic (c₁ c₂ : List ℚ) (h : c₁ = c₂) :
    discrete_cmap_1 c₁ = discrete_cmap_1 c₂ := by
  rw [h]

/-- C7 witness at the concrete input `[0, 1]`. -/
theorem discrete_cmap_1_deterministic_witness :
    ([0, 1] : List ℚ) = [0, 1] ∧ discrete_cmap_1 [0, 1] = discrete_cmap_1 [0, 1] :=
  ⟨rfl, discrete_cmap_1_deterministic [0, 1] [0, 1] rfl⟩

/-- C10: for every breaks sequence of `N ≥ 2` floats the returned color list
is monotone per channel from triple to triple: Red non-decreasing, Green and
Blue non-increasing, so the ramp progresses one-way from turquoise to red. -/
theorem colormap_monotone_ramp (clines : List ℚ) (h : 2 ≤ clines.length) :
    ∃ cs, discrete_cmap_1 clines = some cs ∧
      List.Chain' (fun a b : ℚ × ℚ × ℚ => a.1 ≤ b.1 ∧ b.2.1 ≤ a.2.1 ∧ b.2.2 ≤ a.2.2) cs := by
  refine ⟨_, discrete_cmap_1_eq_mkColors clines (List.length_pos.mp (by omega)), ?_⟩
  rw [mkColors_eq_map, List.chain'_map]
  obtain ⟨m, hm⟩ : ∃ m, n1_of clines.length + n2_of clines.length = m + 1 := by
    have := n1_add_n2 clines.length (by omega)
    exact ⟨clines.length - 2, by omega⟩
  rw [hm, List.chain'_range_succ]
  intro i hi
  have hi' : i + 1 < n1_of clines.length + n2_of clines.length := by omega
  exact ⟨specRed_mono _ (n2_of clines.length) i hi',
    specGreen_anti _ _ i hi', specBlue_anti _ (n2_of clines.length) i hi'⟩

/-- C10 witness at the concrete input `[0, 1, 2, 3, 4]`. -/
theorem colormap_monotone_ramp_witness :
    2 ≤ ([0, 1, 2, 3, 4] : List ℚ).length ∧
      ∃ cs, discrete_cmap_1 [0, 1, 2, 3, 4] = some cs ∧
        List.Chain' (fun a b : ℚ × ℚ × ℚ => a.1 ≤ b.1 ∧ b.2.1 ≤ a.2.1 ∧ b.2.2 ≤ a.2.2) cs :=
  ⟨by decide, colormap_monotone_ramp [0, 1, 2, 3, 4] (by decide)⟩

/-- Header of an ESRI ASCII raster file, per the spec's data model: six
fields; `ncols`/`nrows` positive integers, `cell_size` a positive float. -/
structure RasterHeader where
  ncols : ℤ
  nrows : ℤ
  xllcorner : ℚ
  yllcorner : ℚ
  cellsize : ℚ
  nodata_value : ℚ

/-- A loaded grid: the 2D value array plus the reconstructed cell-center
coordinate vectors. -/
structure Grid where
  values : List (List ℚ)
  X : List ℚ
  Y : List ℚ

/-- Modelled from the spec: the grid loader (`read_asc_file`, imported by the
notebook from `data_tools.py`) is not part of this repository snapshot — only
its call sites appear in the source — so it is modelled from the spec's
contract for `load_raster`.  Header and data block are taken after text
parsing (a header record and rows of numbers); loading fails (`FormatError`)
unless the header invariants hold (`ncols`/`nrows`/`cell_size` positive) and
the data block is exactly `nrows` rows of `ncols` values.  Coordinates follow
the spec: `X[j] = xll_corner + (j + 0.5) * cell_size` and
`Y[i] = yll_corner + (nrows - 1 - i + 0.5) * cell_size` (row 0 is the
northernmost). -/
def load_raster (hdr : RasterHeader) (data : List (List ℚ)) : Option Grid :=
  if 0 < hdr.ncols ∧ 0 < hdr.nrows ∧ 0 < hdr.cellsize
      ∧ data.length = hdr.nrows.toNat
      ∧ ∀ row ∈ data, row.length = hdr.ncols.toNat then
    some { values := data
           X := (List.range hdr.ncols.toNat).map fun j : ℕ =>
                  hdr.xllcorner + ((j : ℚ) + 1/2) * hdr.cellsize
           Y := (List.range hdr.nrows.toNat).map fun i : ℕ =>
                  hdr.yllcorner + (((hdr.nrows : ℤ) : ℚ) - 1 - (i : ℚ) + 1/2) * hdr.cellsize }
  else none

theorem chain'_map_range (r : ℚ → ℚ → Prop) (f : ℕ → ℚ) (n : ℕ)
    (hf : ∀ i, i + 1 < n → r (f i) (f (i + 1))) :
    List.Chain' r ((List.range n).map f) := by
  rw [List.chain'_map]
  cases n with
  | zero => simp
  | succ m =>
    rw [List.chain'_range_succ]
    intro i hi
    exact hf i (by omega)

/-- C8 (spec-modelled): for every well-formed raster (the loader returns a
grid rather than failing), the values array has shape exactly
`(nrows, ncols)` as declared in the header, `X` has length `ncols` and is
strictly increasing, and `Y` has length `nrows` and is strictly decreasing
(north-to-south row order). -/
theorem load_raster_well_formed (hdr : RasterHeader) (data : List (List ℚ)) (g : Grid)
    (hg : load_raster hdr data = some g) :
    g.values.length = hdr.nrows.toNat ∧
      (∀ row ∈ g.values, row.length = hdr.ncols.toNat) ∧
      g.X.length = hdr.ncols.toNat ∧ List.Chain' (· < ·) g.X ∧
      g.Y.length = hdr.nrows.toNat ∧ List.Chain' (· > ·) g.Y := by
  unfold load_raster at hg
  by_cases hcond : 0 < hdr.ncols ∧ 0 < hdr.nrows ∧ 0 < hdr.cellsize
      ∧ data.length = hdr.nrows.toNat
      ∧ ∀ row ∈ data, row.length = hdr.ncols.toNat
  · rw [if_pos hcond] at hg
    obtain ⟨hc, hr, hs, hlen, hrows⟩ := hcond
    cases hg
    refine ⟨hlen, hrows, by simp, ?_, by simp, ?_⟩
    · apply chain'_map_range
      intro i _
      have key : hdr.xllcorner + ((i : ℚ) + 1 + 1/2) * hdr.cellsize
          = hdr.xllcorner + ((i : ℚ) + 1/2) * hdr.cellsize + hdr.cellsize := by
        ring
      push_cast
      rw [key]
      linarith
    · apply chain'_map_range
      intro i _
      show hdr.yllcorner + _ > hdr.yllcorner + _
      have key : hdr.yllcorner + (((hdr.nrows : ℤ) : ℚ) - 1 - ((i : ℚ) + 1) + 1/2) * hdr.cellsize
          = hdr.yllcorner + (((hdr.nrows : ℤ) : ℚ) - 1 - (i : ℚ) + 1/2) * hdr.cellsize
            - hdr.cellsize := by
        ring
      push_cast
      rw [key]
      linarith
  · rw [if_neg hcond] at hg
    exact Option.noConfusion hg

/-- A concrete well-formed 2×2 raster header used as the C8 witness input. -/
def sampleHeader : RasterHeader := ⟨2, 2, 0, 0, 1, -9999⟩

/-- A concrete 2×2 data block used as the C8 witness input. -/
def sampleData : List (List ℚ) := [[1, 2], [3, 4]]

/-- The grid the loader produces on `sampleHeader`/`sampleData`. -/
def sampleGrid : Grid := ⟨[[1, 2], [3, 4]], [1/2, 3/2], [3/2, 1/2]⟩

/-- C8 witness at the concrete 2×2 raster. -/
theorem load_raster_well_formed_witness :
    load_raster sampleHeader sampleData = some sampleGrid ∧
      (sampleGrid.values.length = sampleHeader.nrows.toNat ∧
        (∀ row ∈ sampleGrid.values, row.length = sampleHeader.ncols.toNat) ∧
        sampleGrid.X.length = sampleHeader.ncols.toNat ∧
        List.Chain' (· < ·) sampleGrid.X ∧
        sampleGrid.Y.length = sampleHeader.nrows.toNat ∧
        List.Chain' (· > ·) sampleGrid.Y) :=
  have h : load_raster sampleHeader sampleData = some sampleGrid := by
    norm_num [load_raster, sampleHeader, sampleData, sampleGrid, List.range_succ,
      show (2 : ℤ).toNat = 2 from rfl]
  ⟨h, load_raster_well_formed sampleHeader sampleData sampleGrid h⟩

/-- A numpy masked array: a value array together with a boolean mask of the
same shape (`True` marks masked-out cells). -/
structure MaskedArray where
  data : List (List ℚ)
  mask : List (List Bool)

/-- Embedding of `numpy.ma.masked_where(condition, a)` with its default
`copy=True`, as called twice by the notebook: it returns a NEW masked array
whose data equals `a`'s and whose mask is the elementwise OR of `condition`
with `a`'s mask; the argument `a` is not modified. -/
def masked_where (cond : List (List Bool)) (a : MaskedArray) : MaskedArray :=
  { data := a.data, mask := List.zipWith (List.zipWith or) cond a.mask }

/-- Elementwise scalar comparison `arr < c`, as in the notebook's
`hmax < 0.001` and `topo < 0`. -/
def array_lt (a : List (List ℚ)) (c : ℚ) : List (List Bool) :=
  a.map fun row => row.map fun x => decide (x < c)

/-- The notebook bindings involved in the masking cell: the two loaded arrays
and the two derived bindings the cell assigns. -/
structure NotebookState where
  hmax : MaskedArray
  topo : MaskedArray
  hmax_dry : Option MaskedArray
  hmax_onshore : Option MaskedArray

/-- The notebook's masking cell, verbatim:

```python
hmax_dry = ma.masked_where(hmax < 0.001, hmax)
hmax_onshore = ma.masked_where(topo < 0, hmax_dry)
```

Each assignment binds a fresh array (`ma.masked_where` copies by default);
the existing bindings `hmax` and `topo` are never assigned or mutated. -/
def run_masking_cell (s : NotebookState) : NotebookState :=
  let hd := masked_where (array_lt s.hmax.data (1/1000)) s.hmax
  let ho := masked_where (array_lt s.topo.data 0) hd
  { s with hmax_dry := some hd, hmax_onshore := some ho }

/-- C9: running the downstream masking steps produces new derived arrays
(`hmax_dry` and `hmax_onshore`, both carrying the loaded `hmax` values) and
leaves the originally loaded `hmax` and `topo` arrays unchanged. -/
theorem masking_preserves_originals (s : NotebookState) :
    (run_masking_cell s).hmax = s.hmax ∧ (run_masking_cell s).topo = s.topo ∧
      ∃ hd ho, (run_masking_cell s).hmax_dry = some hd ∧
        (run_masking_cell s).hmax_onshore = some ho ∧
        hd.data = s.hmax.data ∧ ho.data = s.hmax.data :=
  ⟨rfl, rfl, _, _, rfl, rfl, rfl, rfl⟩
